import Mathlib

/-!
Verification development for the versioned migration and seed engine of
`ranson21/ranor-common` (`pkg/database/seeder/seeder.go`).

The engine is embedded shallowly:

* `DB` is the committed durable state of the two tracking tables
  (`schema_migrations` rows and `schema_seeds` rows, in insertion order).
* `Tx` is a transaction handle with an explicit phase
  (`opened`/`committed`/`rolledBack`); `Tx.begin` snapshots the committed
  state, `Tx.commit` publishes the pending view, and `Tx.rollback` discards
  it, being a safe no-op after a commit, exactly as the store contract
  requires for the `defer tx.Rollback(ctx)` pattern used by the Go code.
* `Env` is the failure oracle of the abstract store: which script
  executions fail, which tracking inserts fail for store-level reasons
  beyond the primary-key constraint, which seed actions fail, and whether
  `Rollback` itself reports an error. The primary-key constraints declared
  by the bootstrap DDL (`version` for migrations, `name` for seeds) are
  part of the store semantics: an insert of a duplicate key always fails.
* Runs additionally produce a trace of `Event`s — the script execution
  attempts in real-time order. Events are emitted when an execution is
  attempted and are not undone by a rollback (the rollback undoes the
  transactional state, not the fact that the attempt happened).
* Scripts act on the application schema, which the tracking-table model
  does not represent; a script's observable behaviour is its trace event
  and its success or failure as decreed by `Env`. Tracking-table reads
  (`getAppliedMigrations`, `getAppliedSeeds`) are assumed to succeed.
-/

namespace Seeder

/-- Migration value object (seeder.go, `type Migration struct`): version,
description, Up script text and Down script text. -/
structure Migration where
  Version : Int
  Description : String
  Up : String
  Down : String
  deriving Repr, DecidableEq

/-- Seed value object (seeder.go, `type Seed struct`): name and priority.
The Go `Run` field is an opaque effectful action; in the model its
invocation is a trace event and its success or failure is resolved by the
environment (`Env.seedRunFails`), keyed by the seed's name. -/
structure Seed where
  Name : String
  Priority : Int
  deriving Repr, DecidableEq

/-- Committed durable state of the store's tracking tables: the rows of
`schema_migrations` as (version, description) pairs and the rows of
`schema_seeds` as names, each in insertion order. -/
structure DB where
  migRows : List (Int × String)
  seedRows : List String
  deriving Repr, DecidableEq

/-- Failure oracle of the abstract store. `fails s` says whether executing
script `s` via `Tx.Exec` fails; `insertMigFails v` / `insertSeedFails n`
are store-level failures of the tracking insert other than the primary-key
violation (which the model always enforces); `seedRunFails n` says whether
the seed action registered under name `n` fails; `rollbackFails` is the
error result of `Tx.Rollback`, which seeder.go always discards. -/
structure Env where
  fails : String → Bool
  insertMigFails : Int → Bool
  insertSeedFails : String → Bool
  seedRunFails : String → Bool
  rollbackFails : Bool

/-- Observable attempt events of a run, in real-time order: a bootstrap DDL
execution, a migration Up-script execution attempt (version and script), or
a seed action invocation (name). -/
inductive Event where
  | ddl (sql : String)
  | execUp (version : Int) (up : String)
  | execSeed (name : String)
  deriving Repr, DecidableEq

/-- Phase of a transaction handle. -/
inductive TxPhase where
  | opened
  | committed
  | rolledBack
  deriving Repr, DecidableEq

/-- Transaction handle: the committed state seen at `Begin`, the pending
view the transaction's writes act on, and the phase. -/
structure Tx where
  base : DB
  pending : DB
  phase : TxPhase
  deriving Repr, DecidableEq

/-- Begin a transaction: the pending view starts as a snapshot of the
committed state. -/
def Tx.begin (db : DB) : Tx :=
  { base := db, pending := db, phase := TxPhase.opened }

/-- Commit: publish the pending view. -/
def Tx.commit (t : Tx) : Tx :=
  { t with phase := TxPhase.committed }

/-- Rollback: discard the pending view of an open transaction; a safe no-op
on an already committed (or rolled back) transaction, per the store
contract of spec section 4.1. The second component is the store's rollback
error, which every caller in seeder.go discards (`defer tx.Rollback(ctx)`). -/
def Tx.rollback (env : Env) (t : Tx) : Tx × Option String :=
  match t.phase with
  | TxPhase.opened =>
      ({ t with phase := TxPhase.rolledBack },
       if env.rollbackFails then some "rollback failed" else none)
  | _ => (t, none)

/-- Committed database after the transaction handle is finished with. -/
def Tx.final (t : Tx) : DB :=
  match t.phase with
  | TxPhase.committed => t.pending
  | _ => t.base

/-- Errors returned by the manager, mirroring seeder.go's wrapped
`fmt.Errorf` results: the constructor records the phase that failed and the
unit identifier the Go message carries (`executing migration %d: %w`,
`recording migration %d: %w`, `executing seed %s: %w`,
`recording seed %s: %w`); `schemaError` is a tracking-table bootstrap
failure returned unwrapped. -/
inductive RunError where
  | schemaError (sql : String)
  | execError (version : Int) (up : String)
  | recordError (version : Int)
  | seedExecError (name : String)
  | seedRecordError (name : String)
  deriving Repr, DecidableEq

/-- Exact DDL text executed by `Manager.createMigrationsTable`
(seeder.go raw string literal, tabs and newlines included). -/
def createMigrationsTableSQL : String :=
  "\n\t\t\tCREATE TABLE IF NOT EXISTS schema_migrations (\n\t\t\t\t\tversion integer PRIMARY KEY,\n\t\t\t\t\tdescription text NOT NULL,\n\t\t\t\t\tapplied_at timestamp with time zone DEFAULT current_timestamp\n\t\t\t);\n\t"

/-- Exact DDL text executed by `Manager.createSeedsTable`
(seeder.go raw string literal, tabs and newlines included). -/
def createSeedsTableSQL : String :=
  "\n\t\t\tCREATE TABLE IF NOT EXISTS schema_seeds (\n\t\t\t\t\tname text PRIMARY KEY,\n\t\t\t\t\tapplied_at timestamp with time zone DEFAULT current_timestamp\n\t\t\t);\n\t"

/-- Manager.createMigrationsTable (seeder.go): begin a transaction, defer
its rollback, execute the idempotent CREATE TABLE IF NOT EXISTS DDL, and
commit. Returns the finished transaction handle (deferred rollback already
applied), the trace, and the error. The DDL does not change the modeled
rows (the tracking tables exist in every modeled state). -/
def createMigrationsTableTx (env : Env) (db : DB) : Tx × List Event × Option RunError :=
  let t := Tx.begin db
  if env.fails createMigrationsTableSQL then
    ((Tx.rollback env t).1, [Event.ddl createMigrationsTableSQL],
     some (RunError.schemaError createMigrationsTableSQL))
  else
    ((Tx.rollback env (Tx.commit t)).1, [Event.ddl createMigrationsTableSQL], none)

/-- Committed-state view of `createMigrationsTableTx`. -/
def createMigrationsTable (env : Env) (db : DB) : DB × List Event × Option RunError :=
  let r := createMigrationsTableTx env db
  (r.1.final, r.2.1, r.2.2)

/-- Manager.createSeedsTable (seeder.go): same shape as
`createMigrationsTableTx` for the `schema_seeds` table. -/
def createSeedsTableTx (env : Env) (db : DB) : Tx × List Event × Option RunError :=
  let t := Tx.begin db
  if env.fails createSeedsTableSQL then
    ((Tx.rollback env t).1, [Event.ddl createSeedsTableSQL],
     some (RunError.schemaError createSeedsTableSQL))
  else
    ((Tx.rollback env (Tx.commit t)).1, [Event.ddl createSeedsTableSQL], none)

/-- Committed-state view of `createSeedsTableTx`. -/
def createSeedsTable (env : Env) (db : DB) : DB × List Event × Option RunError :=
  let r := createSeedsTableTx env db
  (r.1.final, r.2.1, r.2.2)

/-- Manager.getAppliedMigrations (seeder.go): `SELECT version FROM
schema_migrations`, collected into the applied-version set (modeled as the
list of versions present). -/
def getAppliedMigrations (db : DB) : List Int :=
  db.migRows.map Prod.fst

/-- Manager.getAppliedSeeds (seeder.go): `SELECT name FROM schema_seeds`,
collected into the applied-name set. -/
def getAppliedSeeds (db : DB) : List String :=
  db.seedRows

/-- Manager.runMigration (seeder.go): begin a transaction, defer its
rollback, execute the Up script, insert the tracking row
`(version, description)` into `schema_migrations`, and commit. The insert
fails on a primary-key violation (the version is already present in the
transaction's view) or on a store-level insert failure; any failure returns
with the transaction left to the deferred rollback. Returns the finished
transaction handle, the trace of attempts, and the error. -/
def runMigrationTx (env : Env) (db : DB) (mg : Migration) : Tx × List Event × Option RunError :=
  let t := Tx.begin db
  if env.fails mg.Up then
    ((Tx.rollback env t).1, [Event.execUp mg.Version mg.Up],
     some (RunError.execError mg.Version mg.Up))
  else if mg.Version ∈ t.pending.migRows.map Prod.fst ∨ env.insertMigFails mg.Version then
    ((Tx.rollback env t).1, [Event.execUp mg.Version mg.Up],
     some (RunError.recordError mg.Version))
  else
    let t1 := { t with pending :=
      { t.pending with migRows := t.pending.migRows ++ [(mg.Version, mg.Description)] } }
    ((Tx.rollback env (Tx.commit t1)).1, [Event.execUp mg.Version mg.Up], none)

/-- Committed-state view of `runMigrationTx`. -/
def runMigration (env : Env) (db : DB) (mg : Migration) : DB × List Event × Option RunError :=
  let r := runMigrationTx env db mg
  (r.1.final, r.2.1, r.2.2)

/-- Manager.runSeed (seeder.go): begin a transaction, defer its rollback,
invoke the seed's Run action, insert the tracking row `(name)` into
`schema_seeds`, and commit. The insert fails on a primary-key violation on
the name or on a store-level insert failure. -/
def runSeedTx (env : Env) (db : DB) (sd : Seed) : Tx × List Event × Option RunError :=
  let t := Tx.begin db
  if env.seedRunFails sd.Name then
    ((Tx.rollback env t).1, [Event.execSeed sd.Name],
     some (RunError.seedExecError sd.Name))
  else if sd.Name ∈ t.pending.seedRows ∨ env.insertSeedFails sd.Name then
    ((Tx.rollback env t).1, [Event.execSeed sd.Name],
     some (RunError.seedRecordError sd.Name))
  else
    let t1 := { t with pending :=
      { t.pending with seedRows := t.pending.seedRows ++ [sd.Name] } }
    ((Tx.rollback env (Tx.commit t1)).1, [Event.execSeed sd.Name], none)

/-- Committed-state view of `runSeedTx`. -/
def runSeed (env : Env) (db : DB) (sd : Seed) : DB × List Event × Option RunError :=
  let r := runSeedTx env db sd
  (r.1.final, r.2.1, r.2.2)

/-- Sorting step of Manager.RunMigrations (seeder.go): `sort.Slice`
ascending by `Version`. Go's `sort.Slice` is an unstable ascending sort
whose order among equal versions is unspecified; the model fixes one
admissible order (insertion sort, which is stable). -/
def sortMigrations (l : List Migration) : List Migration :=
  l.insertionSort (fun a b => a.Version ≤ b.Version)

/-- Sorting step of Manager.RunSeeds (seeder.go): `sort.Slice` ascending by
`Priority`, with the same unspecified-tie caveat as `sortMigrations`. -/
def sortSeeds (l : List Seed) : List Seed :=
  l.insertionSort (fun a b => a.Priority ≤ b.Priority)

/-- Application loop of Manager.RunMigrations (seeder.go): walk the sorted
list, skip versions found in the applied set computed before the loop
(never refreshed inside the run), run each remaining migration, and abort
on the first error. -/
def runPendingMigrations (env : Env) (applied : List Int) :
    List Migration → DB → DB × List Event × Option RunError
  | [], db => (db, [], none)
  | mg :: rest, db =>
    if mg.Version ∈ applied then
      runPendingMigrations env applied rest db
    else
      match runMigration env db mg with
      | (db1, ev, some e) => (db1, ev, some e)
      | (db1, ev, none) =>
        let r := runPendingMigrations env applied rest db1
        (r.1, ev ++ r.2.1, r.2.2)

/-- Manager.RunMigrations (seeder.go): bootstrap the tracking table in its
own transaction, sort registered migrations by ascending version, read the
applied set once, then apply the pending migrations in order with fail-fast
abort. -/
def RunMigrations (env : Env) (migs : List Migration) (db : DB) :
    DB × List Event × Option RunError :=
  match createMigrationsTable env db with
  | (db1, ev1, some e) => (db1, ev1, some e)
  | (db1, ev1, none) =>
    let sorted := sortMigrations migs
    let applied := getAppliedMigrations db1
    let r := runPendingMigrations env applied sorted db1
    (r.1, ev1 ++ r.2.1, r.2.2)

/-- Application loop of Manager.RunSeeds (seeder.go): walk the sorted list,
skip names found in the applied set computed before the loop, run each
remaining seed, and abort on the first error. -/
def runPendingSeeds (env : Env) (applied : List String) :
    List Seed → DB → DB × List Event × Option RunError
  | [], db => (db, [], none)
  | sd :: rest, db =>
    if sd.Name ∈ applied then
      runPendingSeeds env applied rest db
    else
      match runSeed env db sd with
      | (db1, ev, some e) => (db1, ev, some e)
      | (db1, ev, none) =>
        let r := runPendingSeeds env applied rest db1
        (r.1, ev ++ r.2.1, r.2.2)

/-- Manager.RunSeeds (seeder.go): bootstrap `schema_seeds` in its own
transaction, sort registered seeds by ascending priority, read the applied
set once, then apply the pending seeds in order with fail-fast abort. -/
def RunSeeds (env : Env) (sds : List Seed) (db : DB) :
    DB × List Event × Option RunError :=
  match createSeedsTable env db with
  | (db1, ev1, some e) => (db1, ev1, some e)
  | (db1, ev1, none) =>
    let sorted := sortSeeds sds
    let applied := getAppliedSeeds db1
    let r := runPendingSeeds env applied sorted db1
    (r.1, ev1 ++ r.2.1, r.2.2)

/-- Model of Go's `strings.Split` for a one-character separator, on the
character list of the string: splitting the empty string yields one empty
part, and every separator occurrence starts a new part. -/
def splitBy (p : Char → Bool) : List Char → List (List Char)
  | [] => [[]]
  | x :: xs =>
    let r := splitBy p xs
    if p x then [] :: r
    else
      match r with
      | [] => [[x]]
      | h :: t => (x :: h) :: t

/-- Model of Go's `strings.HasSuffix` on strings via their character
lists. -/
def hasSuffix (s suffix : String) : Bool :=
  suffix.data.isSuffixOf s.data

/-- Model of Go's `strings.TrimSuffix s ".sql"` under the knowledge that
the suffix is present: drop the last four characters. -/
def trimSqlSuffix (s : String) : String :=
  String.mk (s.data.take (s.data.length - 4))

/-- Model of Go's `strings.Join parts "_"`. -/
def joinUnderscore : List String → String
  | [] => ""
  | [s] => s
  | s :: rest => s ++ "_" ++ joinUnderscore rest

/-- Underscore components of a migration or seed filename after the `.sql`
suffix is stripped (`strings.Split(..., "_")`). -/
def nameParts (name : String) : List String :=
  (splitBy (fun c => c == '_') (trimSqlSuffix name).data).map String.mk

/-- Model of Go's `strconv.Atoi`: an optional sign character followed by
one or more ASCII digits; anything else is a parse error. Note that a
leading minus sign is accepted, so negative versions parse successfully. -/
def atoi (s : String) : Option Int :=
  match s.data with
  | [] => none
  | c :: rest =>
    let neg := c == '-'
    let digits := if c == '-' || c == '+' then rest else c :: rest
    if digits.isEmpty then none
    else if digits.all Char.isDigit then
      let n : Nat := digits.foldl (fun acc d => acc * 10 + (d.toNat - 48)) 0
      some (if neg then -(n : Int) else (n : Int))
    else none

/-- Lookup in the in-progress `map[int]Migration` of
`FileLoader.LoadMigrationsFromDir`, modeled as an association list kept in
first-insertion order (Go iterates the finished map in unspecified order;
the model fixes insertion order). -/
def getMig (version : Int) : List (Int × Migration) → Option Migration
  | [] => none
  | (v, m) :: rest => if v = version then some m else getMig version rest

/-- Store into the in-progress migration map (`migrations[version] = m`). -/
def setMig (version : Int) (m : Migration) : List (Int × Migration) → List (Int × Migration)
  | [] => [(version, m)]
  | (v, m0) :: rest =>
    if v = version then (v, m) :: rest else (v, m0) :: setMig version m rest

/-- Whether a `.sql` migration filename (directory entry name) is
well-formed for the loader: stripping the `.sql` suffix and splitting on
underscores yields at least three parts, and the first part parses with
`atoi`. -/
def wellFormedMigrationName (name : String) : Bool :=
  let parts := nameParts name
  decide (3 ≤ parts.length) && (atoi (parts.headD "")).isSome

/-- Processing of one directory entry by `FileLoader.LoadMigrationsFromDir`
(seeder.go): skip non-`.sql` names; split the name (minus `.sql`) on `_`;
reject fewer than three parts; parse the version with `strconv.Atoi`; the
entry is an up-file when the last part has suffix `"up"`; the description
is the middle parts rejoined with `_` (kept from the first file seen for
the version); store the content into the Up or Down field of the map entry
for the version. -/
def loadMigrationEntry (acc : List (Int × Migration)) (name content : String) :
    Except String (List (Int × Migration)) :=
  if ¬ hasSuffix name ".sql" then Except.ok acc
  else
    let parts := nameParts name
    if parts.length < 3 then Except.error ("invalid migration filename: " ++ name)
    else
      match atoi (parts.headD "") with
      | none => Except.error ("invalid version in filename " ++ name)
      | some version =>
        let isUp := hasSuffix (parts.getLastD "") "up"
        let description := joinUnderscore ((parts.drop 1).dropLast)
        let m0 := match getMig version acc with
          | some m => m
          | none => { Version := version, Description := description, Up := "", Down := "" }
        let m1 := if isUp then { m0 with Up := content } else { m0 with Down := content }
        Except.ok (setMig version m1 acc)

/-- Folding loop of `FileLoader.LoadMigrationsFromDir` over the directory
listing, aborting on the first malformed entry. -/
def loadMigrationsLoop : List (String × String) → List (Int × Migration) →
    Except String (List (Int × Migration))
  | [], acc => Except.ok acc
  | (name, content) :: rest, acc =>
    match loadMigrationEntry acc name content with
    | Except.error e => Except.error e
    | Except.ok acc1 => loadMigrationsLoop rest acc1

/-- FileLoader.LoadMigrationsFromDir (seeder.go), over a directory listing
modeled as (filename, content) pairs: build the version-keyed map, merging
up/down files that share a version, then return its values. -/
def LoadMigrationsFromDir (files : List (String × String)) : Except String (List Migration) :=
  match loadMigrationsLoop files [] with
  | Except.error e => Except.error e
  | Except.ok acc => Except.ok (acc.map Prod.snd)

/-- Whether `runMigration` succeeds for `mg` irrespective of the database
state (given the version is not already present): the Up script executes
and the store does not fail the tracking insert. -/
def migOK (env : Env) (mg : Migration) : Bool :=
  !(env.fails mg.Up) && !(env.insertMigFails mg.Version)

/-- Tracking row recorded for a committed migration. -/
def migRowOf (mg : Migration) : Int × String :=
  (mg.Version, mg.Description)

/-- Trace event of a migration's Up-script execution attempt. -/
def upEvent (mg : Migration) : Event :=
  Event.execUp mg.Version mg.Up

/-- Whether `runSeed` succeeds for `sd` irrespective of the database state
(given the name is not already present). -/
def seedOK (env : Env) (sd : Seed) : Bool :=
  !(env.seedRunFails sd.Name) && !(env.insertSeedFails sd.Name)

/-- Trace event of a seed action invocation. -/
def seedEvent (sd : Seed) : Event :=
  Event.execSeed sd.Name

/-- Modelled from the spec (section 4.2, steps 4-5): the intended outcome
of one run over the pending migration list — apply each pending migration
in order until the first failure, committing the effect and tracking row of
each success atomically; at the first failure, roll back, attempt nothing
further, and report the failing phase for that version. This is the
spec-side description against which the loop of the code is proved. -/
def runSpecMigrations (env : Env) (db : DB) (p : List Migration) :
    DB × List Event × Option RunError :=
  let pre := p.takeWhile (migOK env)
  let db1 := { db with migRows := db.migRows ++ pre.map migRowOf }
  match p.dropWhile (migOK env) with
  | [] => (db1, pre.map upEvent, none)
  | mg :: _ =>
    (db1, pre.map upEvent ++ [upEvent mg],
     some (if env.fails mg.Up then RunError.execError mg.Version mg.Up
           else RunError.recordError mg.Version))

/-- Modelled from the spec (section 4.3): the intended outcome of one run
over the pending seed list, in the same shape as `runSpecMigrations`. -/
def runSpecSeeds (env : Env) (db : DB) (p : List Seed) :
    DB × List Event × Option RunError :=
  let pre := p.takeWhile (seedOK env)
  let db1 := { db with seedRows := db.seedRows ++ pre.map Seed.Name }
  match p.dropWhile (seedOK env) with
  | [] => (db1, pre.map seedEvent, none)
  | sd :: _ =>
    (db1, pre.map seedEvent ++ [seedEvent sd],
     some (if env.seedRunFails sd.Name then RunError.seedExecError sd.Name
           else RunError.seedRecordError sd.Name))

/-- Pending migrations of a run against `db`: the sorted registered list
filtered by the applied-version set read from `db`. -/
def pendingMigrations (migs : List Migration) (db : DB) : List Migration :=
  (sortMigrations migs).filter (fun mg => decide (mg.Version ∉ getAppliedMigrations db))

/-- Pending seeds of a run against `db`: the sorted registered list
filtered by the applied-name set read from `db`. -/
def pendingSeeds (sds : List Seed) (db : DB) : List Seed :=
  (sortSeeds sds).filter (fun sd => decide (sd.Name ∉ getAppliedSeeds db))

/-- Splitting `takeWhile` and `dropWhile` around the first element
falsifying the predicate. -/
theorem takeWhile_dropWhile_middle {α : Type} (p : α → Bool) (pre : List α) (x : α)
    (post : List α) (hpre : ∀ y ∈ pre, p y = true) (hx : p x = false) :
    (pre ++ x :: post).takeWhile p = pre ∧ (pre ++ x :: post).dropWhile p = x :: post := by
  induction pre with
  | nil => simp [List.takeWhile, List.dropWhile, hx]
  | cons a l ih =>
    have ha : p a = true := hpre a (List.mem_cons_self a l)
    have ih1 := ih (fun y hy => hpre y (List.mem_cons_of_mem a hy))
    simp [List.takeWhile, List.dropWhile, ha, ih1.1, ih1.2]

/-- Behaviour of `runMigration` when nothing fails: it commits exactly the
new tracking row after executing the Up script. -/
theorem runMigration_ok (env : Env) (db : DB) (mg : Migration)
    (hup : env.fails mg.Up = false)
    (hpk : mg.Version ∉ db.migRows.map Prod.fst)
    (hins : env.insertMigFails mg.Version = false) :
    runMigration env db mg =
      ({ db with migRows := db.migRows ++ [migRowOf mg] }, [upEvent mg], none) := by
  rw [runMigration, runMigrationTx]
  rw [if_neg (by simp [Tx.begin, hup]), if_neg (by simp [Tx.begin, hpk, hins])]
  simp [Tx.begin, Tx.commit, Tx.rollback, Tx.final, migRowOf, upEvent]

/-- Behaviour of `runMigration` when the Up script fails: rollback, no
state change, a wrapped execution error. -/
theorem runMigration_upFails (env : Env) (db : DB) (mg : Migration)
    (hup : env.fails mg.Up = true) :
    runMigration env db mg =
      (db, [upEvent mg], some (RunError.execError mg.Version mg.Up)) := by
  rw [runMigration, runMigrationTx]
  rw [if_pos (by simp [hup])]
  simp [Tx.begin, Tx.rollback, Tx.final, upEvent]

/-- Behaviour of `runMigration` when the Up script succeeds but the
tracking insert fails (primary-key violation or store-level failure):
rollback, no state change, a wrapped recording error. -/
theorem runMigration_insertFails (env : Env) (db : DB) (mg : Migration)
    (hup : env.fails mg.Up = false)
    (hins : mg.Version ∈ db.migRows.map Prod.fst ∨ env.insertMigFails mg.Version = true) :
    runMigration env db mg =
      (db, [upEvent mg], some (RunError.recordError mg.Version)) := by
  rw [runMigration, runMigrationTx]
  rw [if_neg (by simp [hup]), if_pos (by simpa [Tx.begin] using hins)]
  simp [Tx.begin, Tx.rollback, Tx.final, upEvent]

/-- Bool-level components of a true `migOK`. -/
theorem migOK_true_iff (env : Env) (mg : Migration) :
    migOK env mg = true ↔
      env.fails mg.Up = false ∧ env.insertMigFails mg.Version = false := by
  simp [migOK]

/-- Refinement of the migration application loop against the spec-side
description: provided the pending versions are pairwise distinct and absent
from the store, the loop applies the pending migrations in order up to the
first failure, exactly as `runSpecMigrations` describes. -/
theorem runPendingMigrations_eq_spec (env : Env) (applied : List Int) :
    ∀ (l : List Migration) (db : DB),
    (∀ mg ∈ l, mg.Version ∉ applied → mg.Version ∉ db.migRows.map Prod.fst) →
    ((l.filter (fun mg => decide (mg.Version ∉ applied))).map Migration.Version).Nodup →
    runPendingMigrations env applied l db =
      runSpecMigrations env db (l.filter (fun mg => decide (mg.Version ∉ applied)))
  | [], db, _, _ => by
    simp [runPendingMigrations, runSpecMigrations, List.takeWhile, List.dropWhile]
  | mg :: rest, db, hnotin, hnd => by
    by_cases happ : mg.Version ∈ applied
    · have hfilter : (mg :: rest).filter (fun m => decide (m.Version ∉ applied)) =
          rest.filter (fun m => decide (m.Version ∉ applied)) := by
        simp [List.filter, happ]
      rw [hfilter] at hnd ⊢
      have ih := runPendingMigrations_eq_spec env applied rest db
        (fun m hm => hnotin m (List.mem_cons_of_mem mg hm)) hnd
      rw [runPendingMigrations, if_pos happ]
      exact ih
    · have hfilter : (mg :: rest).filter (fun m => decide (m.Version ∉ applied)) =
          mg :: rest.filter (fun m => decide (m.Version ∉ applied)) := by
        simp [List.filter, happ]
      rw [hfilter] at hnd ⊢
      have hpk : mg.Version ∉ db.migRows.map Prod.fst :=
        hnotin mg (List.mem_cons_self mg rest) happ
      cases hOK : migOK env mg with
      | true =>
        obtain ⟨hup, hins⟩ := (migOK_true_iff env mg).mp hOK
        have hrun := runMigration_ok env db mg hup hpk hins
        have hnd' : ((rest.filter (fun m => decide (m.Version ∉ applied))).map
            Migration.Version).Nodup := (List.nodup_cons.mp hnd).2
        have hvnotin : mg.Version ∉ (rest.filter
            (fun m => decide (m.Version ∉ applied))).map Migration.Version :=
          (List.nodup_cons.mp hnd).1
        have hnotin' : ∀ m ∈ rest, m.Version ∉ applied →
            m.Version ∉ ({ db with migRows := db.migRows ++ [migRowOf mg] } : DB).migRows.map
              Prod.fst := by
          intro m hm hmapp
          have h1 : m.Version ∉ db.migRows.map Prod.fst :=
            hnotin m (List.mem_cons_of_mem mg hm) hmapp
          have h2 : m.Version ≠ mg.Version := by
            intro hEq
            apply hvnotin
            have hmem : m ∈ rest.filter (fun x => decide (x.Version ∉ applied)) := by
              simp [List.mem_filter, hm, hmapp]
            rw [← hEq]
            exact List.mem_map_of_mem Migration.Version hmem
          rw [List.map_append]
          intro hmem
          rcases List.mem_append.mp hmem with h | h
          · exact h1 h
          · simp [migRowOf] at h
            exact h2 h
        have ih := runPendingMigrations_eq_spec env applied rest
          { db with migRows := db.migRows ++ [migRowOf mg] } hnotin' hnd'
        rw [runPendingMigrations, if_neg happ, hrun]
        simp only [ih]
        rw [runSpecMigrations, runSpecMigrations]
        simp only [List.takeWhile_cons, List.dropWhile_cons, hOK]
        cases hdrop : (rest.filter
            (fun m => decide (m.Version ∉ applied))).dropWhile (migOK env) with
        | nil => simp [migRowOf, upEvent]
        | cons a t => simp [migRowOf, upEvent]
      | false =>
        cases hup : env.fails mg.Up with
        | true =>
          have hrun := runMigration_upFails env db mg hup
          rw [runPendingMigrations, if_neg happ, hrun]
          rw [runSpecMigrations]
          simp only [List.takeWhile_cons, List.dropWhile_cons, hOK, hup]
          simp [hup]
        | false =>
          have hins : env.insertMigFails mg.Version = true := by
            simp [migOK, hup] at hOK
            exact hOK
          have hrun := runMigration_insertFails env db mg hup (Or.inr hins)
          rw [runPendingMigrations, if_neg happ, hrun]
          rw [runSpecMigrations]
          simp only [List.takeWhile_cons, List.dropWhile_cons, hOK, hup]
          simp [hup]

/-- Distinct registered versions stay distinct on the pending list. -/
theorem pendingMigrations_nodup (migs : List Migration) (db : DB)
    (hmigs : (migs.map Migration.Version).Nodup) :
    ((pendingMigrations migs db).map Migration.Version).Nodup := by
  have hperm : (sortMigrations migs).Perm migs := List.perm_insertionSort _ migs
  have hsortnd : ((sortMigrations migs).map Migration.Version).Nodup :=
    ((hperm.map Migration.Version).nodup_iff).mpr hmigs
  have hsub : List.Sublist (pendingMigrations migs db) (sortMigrations migs) :=
    List.filter_sublist _
  exact List.Nodup.sublist (List.Sublist.map Migration.Version hsub) hsortnd

/-- Successful bootstrap of `schema_migrations`: the committed state is
unchanged and the DDL execution is traced. -/
theorem createMigrationsTable_ok (env : Env) (db : DB)
    (hddl : env.fails createMigrationsTableSQL = false) :
    createMigrationsTable env db = (db, [Event.ddl createMigrationsTableSQL], none) := by
  rw [createMigrationsTable, createMigrationsTableTx]
  rw [if_neg (by simp [hddl])]
  simp [Tx.begin, Tx.commit, Tx.rollback, Tx.final]

/-- Characterization of `Manager.RunMigrations` against the spec-side run
description: after a successful bootstrap, the run behaves exactly as
`runSpecMigrations` on the pending list (sorted registered migrations minus
the applied set read once from the store), with the bootstrap DDL traced
first. -/
theorem RunMigrations_eq_spec (env : Env) (migs : List Migration) (db : DB)
    (hmigs : (migs.map Migration.Version).Nodup)
    (hddl : env.fails createMigrationsTableSQL = false) :
    RunMigrations env migs db =
      ((runSpecMigrations env db (pendingMigrations migs db)).1,
       Event.ddl createMigrationsTableSQL ::
         (runSpecMigrations env db (pendingMigrations migs db)).2.1,
       (runSpecMigrations env db (pendingMigrations migs db)).2.2) := by
  have hboot := createMigrationsTable_ok env db hddl
  have hloop := runPendingMigrations_eq_spec env (getAppliedMigrations db)
    (sortMigrations migs) db
    (fun mg _ hnot => hnot)
    (pendingMigrations_nodup migs db hmigs)
  rw [RunMigrations, hboot]
  dsimp only
  rw [hloop]
  rfl

/-- Behaviour of `runSeed` when nothing fails: it commits exactly the new
tracking row after invoking the seed action. -/
theorem runSeed_ok (env : Env) (db : DB) (sd : Seed)
    (hrunF : env.seedRunFails sd.Name = false)
    (hpk : sd.Name ∉ db.seedRows)
    (hins : env.insertSeedFails sd.Name = false) :
    runSeed env db sd =
      ({ db with seedRows := db.seedRows ++ [sd.Name] }, [seedEvent sd], none) := by
  rw [runSeed, runSeedTx]
  rw [if_neg (by simp [hrunF]), if_neg (by simp [Tx.begin, hpk, hins])]
  simp [Tx.begin, Tx.commit, Tx.rollback, Tx.final, seedEvent]

/-- Behaviour of `runSeed` when the seed action fails: rollback, no state
change, a wrapped execution error. -/
theorem runSeed_runFails (env : Env) (db : DB) (sd : Seed)
    (hrunF : env.seedRunFails sd.Name = true) :
    runSeed env db sd =
      (db, [seedEvent sd], some (RunError.seedExecError sd.Name)) := by
  rw [runSeed, runSeedTx]
  rw [if_pos (by simp [hrunF])]
  simp [Tx.begin, Tx.rollback, Tx.final, seedEvent]

/-- Behaviour of `runSeed` when the action succeeds but the tracking insert
fails: rollback, no state change, a wrapped recording error. -/
theorem runSeed_insertFails (env : Env) (db : DB) (sd : Seed)
    (hrunF : env.seedRunFails sd.Name = false)
    (hins : sd.Name ∈ db.seedRows ∨ env.insertSeedFails sd.Name = true) :
    runSeed env db sd =
      (db, [seedEvent sd], some (RunError.seedRecordError sd.Name)) := by
  rw [runSeed, runSeedTx]
  rw [if_neg (by simp [hrunF]), if_pos (by simpa [Tx.begin] using hins)]
  simp [Tx.begin, Tx.rollback, Tx.final, seedEvent]

/-- Bool-level components of a true `seedOK`. -/
theorem seedOK_true_iff (env : Env) (sd : Seed) :
    seedOK env sd = true ↔
      env.seedRunFails sd.Name = false ∧ env.insertSeedFails sd.Name = false := by
  simp [seedOK]

/-- Refinement of the seed application loop against the spec-side
description, in the same shape as `runPendingMigrations_eq_spec`. -/
theorem runPendingSeeds_eq_spec (env : Env) (applied : List String) :
    ∀ (l : List Seed) (db : DB),
    (∀ sd ∈ l, sd.Name ∉ applied → sd.Name ∉ db.seedRows) →
    ((l.filter (fun sd => decide (sd.Name ∉ applied))).map Seed.Name).Nodup →
    runPendingSeeds env applied l db =
      runSpecSeeds env db (l.filter (fun sd => decide (sd.Name ∉ applied)))
  | [], db, _, _ => by
    simp [runPendingSeeds, runSpecSeeds, List.takeWhile, List.dropWhile]
  | sd :: rest, db, hnotin, hnd => by
    by_cases happ : sd.Name ∈ applied
    · have hfilter : (sd :: rest).filter (fun s => decide (s.Name ∉ applied)) =
          rest.filter (fun s => decide (s.Name ∉ applied)) := by
        simp [List.filter, happ]
      rw [hfilter] at hnd ⊢
      have ih := runPendingSeeds_eq_spec env applied rest db
        (fun s hs => hnotin s (List.mem_cons_of_mem sd hs)) hnd
      rw [runPendingSeeds, if_pos happ]
      exact ih
    · have hfilter : (sd :: rest).filter (fun s => decide (s.Name ∉ applied)) =
          sd :: rest.filter (fun s => decide (s.Name ∉ applied)) := by
        simp [List.filter, happ]
      rw [hfilter] at hnd ⊢
      have hpk : sd.Name ∉ db.seedRows :=
        hnotin sd (List.mem_cons_self sd rest) happ
      cases hOK : seedOK env sd with
      | true =>
        obtain ⟨hrunF, hins⟩ := (seedOK_true_iff env sd).mp hOK
        have hrun := runSeed_ok env db sd hrunF hpk hins
        have hnd' : ((rest.filter (fun s => decide (s.Name ∉ applied))).map
            Seed.Name).Nodup := (List.nodup_cons.mp hnd).2
        have hvnotin : sd.Name ∉ (rest.filter
            (fun s => decide (s.Name ∉ applied))).map Seed.Name :=
          (List.nodup_cons.mp hnd).1
        have hnotin' : ∀ s ∈ rest, s.Name ∉ applied →
            s.Name ∉ ({ db with seedRows := db.seedRows ++ [sd.Name] } : DB).seedRows := by
          intro s hs hsapp
          have h1 : s.Name ∉ db.seedRows :=
            hnotin s (List.mem_cons_of_mem sd hs) hsapp
          have h2 : s.Name ≠ sd.Name := by
            intro hEq
            apply hvnotin
            have hmem : s ∈ rest.filter (fun x => decide (x.Name ∉ applied)) := by
              simp [List.mem_filter, hs, hsapp]
            rw [← hEq]
            exact List.mem_map_of_mem Seed.Name hmem
          intro hmem
          rcases List.mem_append.mp hmem with h | h
          · exact h1 h
          · simp at h
            exact h2 h
        have ih := runPendingSeeds_eq_spec env applied rest
          { db with seedRows := db.seedRows ++ [sd.Name] } hnotin' hnd'
        rw [runPendingSeeds, if_neg happ, hrun]
        simp only [ih]
        rw [runSpecSeeds, runSpecSeeds]
        simp only [List.takeWhile_cons, List.dropWhile_cons, hOK]
        cases hdrop : (rest.filter
            (fun s => decide (s.Name ∉ applied))).dropWhile (seedOK env) with
        | nil => simp [seedEvent]
        | cons a t => simp [seedEvent]
      | false =>
        cases hrunF : env.seedRunFails sd.Name with
        | true =>
          have hrun := runSeed_runFails env db sd hrunF
          rw [runPendingSeeds, if_neg happ, hrun]
          rw [runSpecSeeds]
          simp only [List.takeWhile_cons, List.dropWhile_cons, hOK, hrunF]
          simp [hrunF]
        | false =>
          have hins : env.insertSeedFails sd.Name = true := by
            simp [seedOK, hrunF] at hOK
            exact hOK
          have hrun := runSeed_insertFails env db sd hrunF (Or.inr hins)
          rw [runPendingSeeds, if_neg happ, hrun]
          rw [runSpecSeeds]
          simp only [List.takeWhile_cons, List.dropWhile_cons, hOK, hrunF]
          simp [hrunF]

/-- Distinct registered names stay distinct on the pending seed list. -/
theorem pendingSeeds_nodup (sds : List Seed) (db : DB)
    (hsds : (sds.map Seed.Name).Nodup) :
    ((pendingSeeds sds db).map Seed.Name).Nodup := by
  have hperm : (sortSeeds sds).Perm sds := List.perm_insertionSort _ sds
  have hsortnd : ((sortSeeds sds).map Seed.Name).Nodup :=
    ((hperm.map Seed.Name).nodup_iff).mpr hsds
  have hsub : List.Sublist (pendingSeeds sds db) (sortSeeds sds) :=
    List.filter_sublist _
  exact List.Nodup.sublist (List.Sublist.map Seed.Name hsub) hsortnd

/-- Successful bootstrap of `schema_seeds`. -/
theorem createSeedsTable_ok (env : Env) (db : DB)
    (hddl : env.fails createSeedsTableSQL = false) :
    createSeedsTable env db = (db, [Event.ddl createSeedsTableSQL], none) := by
  rw [createSeedsTable, createSeedsTableTx]
  rw [if_neg (by simp [hddl])]
  simp [Tx.begin, Tx.commit, Tx.rollback, Tx.final]

/-- Characterization of `Manager.RunSeeds` against the spec-side run
description, in the same shape as `RunMigrations_eq_spec`. -/
theorem RunSeeds_eq_spec (env : Env) (sds : List Seed) (db : DB)
    (hsds : (sds.map Seed.Name).Nodup)
    (hddl : env.fails createSeedsTableSQL = false) :
    RunSeeds env sds db =
      ((runSpecSeeds env db (pendingSeeds sds db)).1,
       Event.ddl createSeedsTableSQL ::
         (runSpecSeeds env db (pendingSeeds sds db)).2.1,
       (runSpecSeeds env db (pendingSeeds sds db)).2.2) := by
  have hboot := createSeedsTable_ok env db hddl
  have hloop := runPendingSeeds_eq_spec env (getAppliedSeeds db)
    (sortSeeds sds) db
    (fun sd _ hnot => hnot)
    (pendingSeeds_nodup sds db hsds)
  rw [RunSeeds, hboot]
  dsimp only
  rw [hloop]
  rfl

/-- Tracking-row versions of a committed prefix. -/
theorem map_fst_migRowOf (l : List Migration) :
    (l.map migRowOf).map Prod.fst = l.map Migration.Version := by
  simp [migRowOf, List.map_map, Function.comp]

/-- Membership in the pending migration list. -/
theorem mem_pendingMigrations (migs : List Migration) (db : DB) (mg : Migration) :
    mg ∈ pendingMigrations migs db ↔
      mg ∈ sortMigrations migs ∧ mg.Version ∉ db.migRows.map Prod.fst := by
  simp [pendingMigrations, List.mem_filter, getAppliedMigrations]

/-- The sorted registered list has the same members as the registered
list. -/
theorem mem_sortMigrations (migs : List Migration) (mg : Migration) :
    mg ∈ sortMigrations migs ↔ mg ∈ migs :=
  (List.perm_insertionSort _ migs).mem_iff

/-- Membership in the pending seed list. -/
theorem mem_pendingSeeds (sds : List Seed) (db : DB) (sd : Seed) :
    sd ∈ pendingSeeds sds db ↔ sd ∈ sortSeeds sds ∧ sd.Name ∉ db.seedRows := by
  simp [pendingSeeds, List.mem_filter, getAppliedSeeds]

/-- The sorted registered seed list has the same members as the registered
list. -/
theorem mem_sortSeeds (sds : List Seed) (sd : Seed) :
    sd ∈ sortSeeds sds ↔ sd ∈ sds :=
  (List.perm_insertionSort _ sds).mem_iff

/-- Spec-side run outcome when every pending migration succeeds: all are
committed, in order, with no error. -/
theorem runSpecMigrations_all_ok (env : Env) (db : DB) (p : List Migration)
    (hok : ∀ m ∈ p, migOK env m = true) :
    runSpecMigrations env db p =
      ({ db with migRows := db.migRows ++ p.map migRowOf }, p.map upEvent, none) := by
  rw [runSpecMigrations]
  rw [List.takeWhile_eq_self_iff.mpr hok, List.dropWhile_eq_nil_iff.mpr hok]

/-- Spec-side run outcome at the first failing migration: the successful
prefix is committed, the failing migration is attempted and reported, and
nothing further happens. -/
theorem runSpecMigrations_split (env : Env) (db : DB) (pre : List Migration)
    (mg : Migration) (post : List Migration)
    (hpre : ∀ m ∈ pre, migOK env m = true) (hfail : migOK env mg = false) :
    runSpecMigrations env db (pre ++ mg :: post) =
      ({ db with migRows := db.migRows ++ pre.map migRowOf },
       pre.map upEvent ++ [upEvent mg],
       some (if env.fails mg.Up then RunError.execError mg.Version mg.Up
             else RunError.recordError mg.Version)) := by
  obtain ⟨htake, hdrop⟩ := takeWhile_dropWhile_middle (migOK env) pre mg post hpre hfail
  rw [runSpecMigrations, htake, hdrop]

/-- Spec-side run outcome when every pending seed succeeds. -/
theorem runSpecSeeds_all_ok (env : Env) (db : DB) (p : List Seed)
    (hok : ∀ s ∈ p, seedOK env s = true) :
    runSpecSeeds env db p =
      ({ db with seedRows := db.seedRows ++ p.map Seed.Name }, p.map seedEvent, none) := by
  rw [runSpecSeeds]
  rw [List.takeWhile_eq_self_iff.mpr hok, List.dropWhile_eq_nil_iff.mpr hok]

instance : IsTotal Migration (fun a b => a.Version ≤ b.Version) :=
  ⟨fun a b => le_total a.Version b.Version⟩

instance : IsTrans Migration (fun a b => a.Version ≤ b.Version) :=
  ⟨fun _ _ _ h1 h2 => le_trans h1 h2⟩

instance : IsTotal Seed (fun a b => a.Priority ≤ b.Priority) :=
  ⟨fun a b => le_total a.Priority b.Priority⟩

instance : IsTrans Seed (fun a b => a.Priority ≤ b.Priority) :=
  ⟨fun _ _ _ h1 h2 => le_trans h1 h2⟩

/-- The pending migration list is sorted by non-decreasing version. -/
theorem pendingMigrations_sorted (migs : List Migration) (db : DB) :
    List.Pairwise (fun a b => a.Version ≤ b.Version) (pendingMigrations migs db) :=
  List.Pairwise.sublist (List.filter_sublist _)
    (List.sorted_insertionSort (fun a b : Migration => a.Version ≤ b.Version) migs)

/-- The pending seed list is sorted by non-decreasing priority. -/
theorem pendingSeeds_sorted (sds : List Seed) (db : DB) :
    List.Pairwise (fun a b => a.Priority ≤ b.Priority) (pendingSeeds sds db) :=
  List.Pairwise.sublist (List.filter_sublist _)
    (List.sorted_insertionSort (fun a b : Seed => a.Priority ≤ b.Priority) sds)

/-- Environment in which no store operation fails. -/
def allOKEnv : Env :=
  { fails := fun _ => false
    insertMigFails := fun _ => false
    insertSeedFails := fun _ => false
    seedRunFails := fun _ => false
    rollbackFails := false }

/-- Environment in which exactly the script text "up5" fails to execute. -/
def failUp5Env : Env :=
  { allOKEnv with fails := fun s => s == "up5" }

/-- Empty store used by concrete instantiations. -/
def emptyDB : DB :=
  { migRows := [], seedRows := [] }

/-- Concrete migration fixtures used by concrete instantiations. -/
def wm1 : Migration := { Version := 1, Description := "one", Up := "up1", Down := "down1" }

def wm2 : Migration := { Version := 2, Description := "two", Up := "up2", Down := "down2" }

def wm3 : Migration := { Version := 3, Description := "three", Up := "up3", Down := "down3" }

def wm4 : Migration := { Version := 4, Description := "four", Up := "up4", Down := "down4" }

def wm5 : Migration := { Version := 5, Description := "five", Up := "up5", Down := "down5" }

def wm6 : Migration := { Version := 6, Description := "six", Up := "up6", Down := "down6" }

/-- C1: for every registered migration whose version is not in the applied
set, if executing its Up script or inserting its tracking row fails, then
`RunMigrations` rolls back that migration's transaction, `schema_migrations`
contains no row for that version, no migration with a higher version is
attempted, and `RunMigrations` returns an error identifying that failure;
migrations committed earlier in the same run remain applied. -/
theorem C1_abort_on_unit_failure (env : Env) (migs : List Migration) (db : DB)
    (mg : Migration) (pre post : List Migration)
    (hmigs : (migs.map Migration.Version).Nodup)
    (hddl : env.fails createMigrationsTableSQL = false)
    (hsplit : pendingMigrations migs db = pre ++ mg :: post)
    (hpre : ∀ m ∈ pre, migOK env m = true)
    (hfail : migOK env mg = false) :
    (RunMigrations env migs db).1.migRows = db.migRows ++ pre.map migRowOf ∧
    mg.Version ∉ ((RunMigrations env migs db).1.migRows.map Prod.fst) ∧
    (RunMigrations env migs db).2.1 =
      Event.ddl createMigrationsTableSQL :: (pre.map upEvent ++ [upEvent mg]) ∧
    (∀ m ∈ post, upEvent m ∉ (RunMigrations env migs db).2.1) ∧
    (RunMigrations env migs db).2.2 =
      some (if env.fails mg.Up then RunError.execError mg.Version mg.Up
            else RunError.recordError mg.Version) := by
  have hmain := RunMigrations_eq_spec env migs db hmigs hddl
  rw [hsplit] at hmain
  rw [runSpecMigrations_split env db pre mg post hpre hfail] at hmain
  have hpnd := pendingMigrations_nodup migs db hmigs
  rw [hsplit] at hpnd
  have hmgpend : mg ∈ pendingMigrations migs db := by
    rw [hsplit]
    exact List.mem_append_right pre (List.mem_cons_self mg post)
  have hmgnotdb : mg.Version ∉ db.migRows.map Prod.fst :=
    ((mem_pendingMigrations migs db mg).mp hmgpend).2
  have hmgnotpre : mg.Version ∉ pre.map Migration.Version := by
    intro hmem
    have := List.nodup_append.mp (by simpa [List.map_append] using hpnd)
    exact this.2.2 hmem (by simp)
  refine ⟨by rw [hmain], ?_, by rw [hmain], ?_, by rw [hmain]⟩
  · rw [hmain]
    simp only [List.map_append, map_fst_migRowOf]
    intro hmem
    rcases List.mem_append.mp hmem with h | h
    · exact hmgnotdb h
    · exact hmgnotpre h
  · intro m hm
    rw [hmain]
    have hmv : m.Version ∈ post.map Migration.Version :=
      List.mem_map_of_mem Migration.Version hm
    have hpnd' : (pre.map Migration.Version ++
        (mg.Version :: post.map Migration.Version)).Nodup := by
      simpa [List.map_append] using hpnd
    have hnd2 := List.nodup_append.mp hpnd'
    have hnotpre : m.Version ∉ pre.map Migration.Version := by
      intro hmem
      exact hnd2.2.2 hmem (List.mem_cons_of_mem mg.Version hmv)
    have hnemg : m.Version ≠ mg.Version := by
      intro hEq
      exact (List.nodup_cons.mp hnd2.2.1).1 (hEq ▸ hmv)
    intro hmem
    rcases List.mem_cons.mp hmem with h | h
    · simp [upEvent] at h
    · rcases List.mem_append.mp h with h' | h'
      · obtain ⟨m', hm', he⟩ := List.mem_map.mp h'
        have hpair : m.Version = m'.Version ∧ m.Up = m'.Up := by
          simpa [upEvent, Event.execUp.injEq] using he.symm
        exact hnotpre (hpair.1 ▸ List.mem_map_of_mem Migration.Version hm')
      · rw [List.mem_singleton] at h'
        have hpair : m.Version = mg.Version ∧ m.Up = mg.Up := by
          simpa [upEvent, Event.execUp.injEq] using h'
        exact hnemg hpair.1

/-- C1 witness: concrete instantiation with migrations registered as
versions 5, 4, 6 against an empty store, where the Up script of version 5
fails: version 4 commits, version 5 is attempted, rolled back and reported,
and version 6 is never attempted. -/
theorem C1_abort_on_unit_failure_witness :
    (RunMigrations failUp5Env [wm5, wm4, wm6] emptyDB).1.migRows =
      emptyDB.migRows ++ [wm4].map migRowOf ∧
    wm5.Version ∉ ((RunMigrations failUp5Env [wm5, wm4, wm6] emptyDB).1.migRows.map Prod.fst) ∧
    (RunMigrations failUp5Env [wm5, wm4, wm6] emptyDB).2.1 =
      Event.ddl createMigrationsTableSQL :: ([wm4].map upEvent ++ [upEvent wm5]) ∧
    (∀ m ∈ [wm6], upEvent m ∉ (RunMigrations failUp5Env [wm5, wm4, wm6] emptyDB).2.1) ∧
    (RunMigrations failUp5Env [wm5, wm4, wm6] emptyDB).2.2 =
      some (if failUp5Env.fails wm5.Up then RunError.execError wm5.Version wm5.Up
            else RunError.recordError wm5.Version) :=
  C1_abort_on_unit_failure failUp5Env [wm5, wm4, wm6] emptyDB wm5 [wm4] [wm6]
    (by decide) (by decide) (by decide) (by decide) (by decide)

/-- C2: for every list of registered migrations with pairwise-distinct
versions, and regardless of the order in which they were registered,
`RunMigrations` executes the pending migrations' Up scripts in strictly
ascending version order (after the bootstrap DDL), and completes without
error when no unit fails. -/
theorem C2_ascending_version_order (env : Env) (migs : List Migration) (db : DB)
    (hmigs : (migs.map Migration.Version).Nodup)
    (hddl : env.fails createMigrationsTableSQL = false)
    (hok : ∀ mg ∈ migs, migOK env mg = true) :
    (RunMigrations env migs db).2.1 =
      Event.ddl createMigrationsTableSQL :: (pendingMigrations migs db).map upEvent ∧
    List.Chain' (fun a b : Int => a < b)
      ((pendingMigrations migs db).map Migration.Version) ∧
    (RunMigrations env migs db).2.2 = none := by
  have hokp : ∀ m ∈ pendingMigrations migs db, migOK env m = true := fun m hm =>
    hok m ((mem_sortMigrations migs m).mp ((mem_pendingMigrations migs db m).mp hm).1)
  have hmain := RunMigrations_eq_spec env migs db hmigs hddl
  rw [runSpecMigrations_all_ok env db _ hokp] at hmain
  have hle : ((pendingMigrations migs db).map Migration.Version).Pairwise
      (fun a b : Int => a ≤ b) :=
    List.pairwise_map.mpr (pendingMigrations_sorted migs db)
  have hnd : ((pendingMigrations migs db).map Migration.Version).Nodup :=
    pendingMigrations_nodup migs db hmigs
  have hlt : ((pendingMigrations migs db).map Migration.Version).Pairwise
      (fun a b : Int => a < b) :=
    List.Pairwise.imp₂ (fun _ _ h1 h2 => lt_of_le_of_ne h1 h2) hle hnd
  exact ⟨by rw [hmain], hlt.chain', by rw [hmain]⟩

/-- C2 witness: migrations registered as versions 3, 1, 2 against an empty
store execute their Up scripts as 1, 2, 3. -/
theorem C2_ascending_version_order_witness :
    ((RunMigrations allOKEnv [wm3, wm1, wm2] emptyDB).2.1 =
      Event.ddl createMigrationsTableSQL ::
        (pendingMigrations [wm3, wm1, wm2] emptyDB).map upEvent ∧
    List.Chain' (fun a b : Int => a < b)
      ((pendingMigrations [wm3, wm1, wm2] emptyDB).map Migration.Version) ∧
    (RunMigrations allOKEnv [wm3, wm1, wm2] emptyDB).2.2 = none) ∧
    (pendingMigrations [wm3, wm1, wm2] emptyDB).map upEvent =
      [upEvent wm1, upEvent wm2, upEvent wm3] :=
  ⟨C2_ascending_version_order allOKEnv [wm3, wm1, wm2] emptyDB
    (by decide) (by decide) (by decide), by decide⟩

/-- C3: running `RunMigrations` a second time on the state produced by a
fully successful first run, with the same registered migrations, executes
zero additional Up scripts (the second trace holds the bootstrap DDL only,
so no Up and no Down script of any migration is invoked) and leaves the
tracking table unchanged. -/
theorem C3_second_run_idempotent (env env2 : Env) (migs : List Migration) (db : DB)
    (hmigs : (migs.map Migration.Version).Nodup)
    (hddl : env.fails createMigrationsTableSQL = false)
    (hddl2 : env2.fails createMigrationsTableSQL = false)
    (hok : ∀ mg ∈ migs, migOK env mg = true) :
    RunMigrations env2 migs ((RunMigrations env migs db).1) =
      ((RunMigrations env migs db).1, [Event.ddl createMigrationsTableSQL], none) := by
  have hokp : ∀ m ∈ pendingMigrations migs db, migOK env m = true := fun m hm =>
    hok m ((mem_sortMigrations migs m).mp ((mem_pendingMigrations migs db m).mp hm).1)
  have hmain := RunMigrations_eq_spec env migs db hmigs hddl
  rw [runSpecMigrations_all_ok env db _ hokp] at hmain
  have hdb1 : (RunMigrations env migs db).1 =
      { db with migRows := db.migRows ++ (pendingMigrations migs db).map migRowOf } := by
    rw [hmain]
  have hpend2 : pendingMigrations migs ((RunMigrations env migs db).1) = [] := by
    rw [hdb1]
    rw [pendingMigrations, List.filter_eq_nil_iff]
    intro m hm
    simp only [decide_eq_true_eq, not_not, getAppliedMigrations]
    simp only [List.map_append, map_fst_migRowOf]
    by_cases hmem : m.Version ∈ db.migRows.map Prod.fst
    · exact List.mem_append_left _ hmem
    · apply List.mem_append_right
      apply List.mem_map_of_mem Migration.Version
      exact (mem_pendingMigrations migs db m).mpr ⟨hm, hmem⟩
  have hmain2 := RunMigrations_eq_spec env2 migs ((RunMigrations env migs db).1)
    hmigs hddl2
  rw [hpend2] at hmain2
  rw [runSpecMigrations_all_ok env2 _ [] (by intro m hm; cases hm)] at hmain2
  simpa using hmain2

/-- C3 witness: a second run over the state left by a first successful run
of migrations 1, 2, 3 changes nothing and runs no Up script. -/
theorem C3_second_run_idempotent_witness :
    RunMigrations allOKEnv [wm3, wm1, wm2]
        ((RunMigrations allOKEnv [wm3, wm1, wm2] emptyDB).1) =
      ((RunMigrations allOKEnv [wm3, wm1, wm2] emptyDB).1,
       [Event.ddl createMigrationsTableSQL], none) :=
  C3_second_run_idempotent allOKEnv allOKEnv [wm3, wm1, wm2] emptyDB
    (by decide) (by decide) (by decide) (by decide)

/-- After committing the prefix `pre` of the pending list, the pending list
of a later run is exactly the untouched remainder. -/
theorem pendingMigrations_after_prefix (migs : List Migration) (db : DB)
    (pre : List Migration) (mg : Migration) (post : List Migration)
    (hmigs : (migs.map Migration.Version).Nodup)
    (hsplit : pendingMigrations migs db = pre ++ mg :: post) :
    pendingMigrations migs
      { db with migRows := db.migRows ++ pre.map migRowOf } = mg :: post := by
  have hpnd := pendingMigrations_nodup migs db hmigs
  rw [hsplit] at hpnd
  have hpnd' : (pre.map Migration.Version ++
      (mg :: post).map Migration.Version).Nodup := by
    simpa [List.map_append] using hpnd
  have hdisj := (List.nodup_append.mp hpnd').2.2
  have hsame : ∀ m : Migration,
      (decide (m.Version ∉ getAppliedMigrations
        { db with migRows := db.migRows ++ pre.map migRowOf }) : Bool) =
      (decide (m.Version ∉ pre.map Migration.Version) &&
       decide (m.Version ∉ getAppliedMigrations db)) := by
    intro m
    have hmem : (m.Version ∈ getAppliedMigrations
        { db with migRows := db.migRows ++ pre.map migRowOf }) ↔
        m.Version ∈ db.migRows.map Prod.fst ∨
          m.Version ∈ pre.map Migration.Version := by
      rw [getAppliedMigrations]
      rw [show ({ db with migRows := db.migRows ++ pre.map migRowOf } : DB).migRows =
        db.migRows ++ pre.map migRowOf from rfl]
      rw [List.map_append, map_fst_migRowOf, List.mem_append]
    by_cases h1 : m.Version ∈ pre.map Migration.Version
    · by_cases h2 : m.Version ∈ db.migRows.map Prod.fst
      · simp [hmem, getAppliedMigrations, h1, h2]
      · simp [hmem, getAppliedMigrations, h1, h2]
        obtain ⟨x, hx, hv⟩ := List.mem_map.mp h1
        exact ⟨x, hx, by simp [migRowOf, hv]⟩
    · by_cases h2 : m.Version ∈ db.migRows.map Prod.fst
      · simp [hmem, getAppliedMigrations, h1, h2]
      · simp [hmem, getAppliedMigrations, h1, h2]
        intro x hx hv
        apply h1
        have hxv : x.Version = m.Version := by simpa [migRowOf] using hv
        exact hxv ▸ List.mem_map_of_mem Migration.Version hx
  calc pendingMigrations migs { db with migRows := db.migRows ++ pre.map migRowOf }
      = (sortMigrations migs).filter
          (fun m => decide (m.Version ∉ pre.map Migration.Version) &&
            decide (m.Version ∉ getAppliedMigrations db)) := by
        rw [pendingMigrations]
        exact List.filter_congr (fun x _ => hsame x)
    _ = ((sortMigrations migs).filter
          (fun m => decide (m.Version ∉ getAppliedMigrations db))).filter
          (fun m => decide (m.Version ∉ pre.map Migration.Version)) := by
        rw [List.filter_filter]
    _ = (pre ++ mg :: post).filter
          (fun m => decide (m.Version ∉ pre.map Migration.Version)) := by
        rw [← pendingMigrations, hsplit]
    _ = mg :: post := by
        rw [List.filter_append]
        have h1 : pre.filter
            (fun m => decide (m.Version ∉ pre.map Migration.Version)) = [] := by
          rw [List.filter_eq_nil_iff]
          intro a ha
          simp [List.mem_map_of_mem Migration.Version ha]
        have h2 : (mg :: post).filter
            (fun m => decide (m.Version ∉ pre.map Migration.Version)) = mg :: post := by
          rw [List.filter_eq_self]
          intro a ha
          simp only [decide_eq_true_eq]
          intro hmem
          exact hdisj hmem (List.mem_map_of_mem Migration.Version ha)
        rw [h1, h2, List.nil_append]

/-- C4: a run that aborts at version `v` leaves every earlier version of
the same run committed; a subsequent run with the cause fixed applies `v`
and all higher pending versions in ascending order without re-executing
any earlier version, arriving at the fully applied state. -/
theorem C4_resume_after_partial_failure (env1 env2 : Env) (migs : List Migration)
    (db : DB) (mg : Migration) (pre post : List Migration)
    (hmigs : (migs.map Migration.Version).Nodup)
    (hddl1 : env1.fails createMigrationsTableSQL = false)
    (hddl2 : env2.fails createMigrationsTableSQL = false)
    (hsplit : pendingMigrations migs db = pre ++ mg :: post)
    (hpre : ∀ m ∈ pre, migOK env1 m = true)
    (hfail : migOK env1 mg = false)
    (hok2 : ∀ m ∈ migs, migOK env2 m = true) :
    ((RunMigrations env1 migs db).2.2).isSome = true ∧
    (RunMigrations env1 migs db).1.migRows = db.migRows ++ pre.map migRowOf ∧
    pendingMigrations migs ((RunMigrations env1 migs db).1) = mg :: post ∧
    (RunMigrations env2 migs ((RunMigrations env1 migs db).1)).2.1 =
      Event.ddl createMigrationsTableSQL :: (mg :: post).map upEvent ∧
    (RunMigrations env2 migs ((RunMigrations env1 migs db).1)).1.migRows =
      db.migRows ++ (pre ++ mg :: post).map migRowOf ∧
    (RunMigrations env2 migs ((RunMigrations env1 migs db).1)).2.2 = none := by
  have hmain1 := RunMigrations_eq_spec env1 migs db hmigs hddl1
  rw [hsplit, runSpecMigrations_split env1 db pre mg post hpre hfail] at hmain1
  have hdb1 : (RunMigrations env1 migs db).1 =
      { db with migRows := db.migRows ++ pre.map migRowOf } := by rw [hmain1]
  have hpend2 := pendingMigrations_after_prefix migs db pre mg post hmigs hsplit
  rw [← hdb1] at hpend2
  have hokpend : ∀ m ∈ mg :: post, migOK env2 m = true := by
    intro m hm
    apply hok2
    have hmemp : m ∈ pendingMigrations migs db := by
      rw [hsplit]
      exact List.mem_append_right pre hm
    exact (mem_sortMigrations migs m).mp ((mem_pendingMigrations migs db m).mp hmemp).1
  have hmain2 := RunMigrations_eq_spec env2 migs ((RunMigrations env1 migs db).1)
    hmigs hddl2
  rw [hpend2, runSpecMigrations_all_ok env2 _ _ hokpend] at hmain2
  refine ⟨by rw [hmain1]; rfl, by rw [hmain1], hpend2, by rw [hmain2], ?_,
    by rw [hmain2]⟩
  rw [hmain2, hdb1]
  simp [List.map_append, List.append_assoc]

/-- C4 witness: a run of versions 4, 5, 6 against an empty store aborting
at version 5 commits only version 4; the repaired second run applies 5 and
6 in order without re-running 4. -/
theorem C4_resume_after_partial_failure_witness :
    ((RunMigrations failUp5Env [wm5, wm4, wm6] emptyDB).2.2).isSome = true ∧
    (RunMigrations failUp5Env [wm5, wm4, wm6] emptyDB).1.migRows =
      emptyDB.migRows ++ [wm4].map migRowOf ∧
    pendingMigrations [wm5, wm4, wm6]
      ((RunMigrations failUp5Env [wm5, wm4, wm6] emptyDB).1) = wm5 :: [wm6] ∧
    (RunMigrations allOKEnv [wm5, wm4, wm6]
        ((RunMigrations failUp5Env [wm5, wm4, wm6] emptyDB).1)).2.1 =
      Event.ddl createMigrationsTableSQL :: (wm5 :: [wm6]).map upEvent ∧
    (RunMigrations allOKEnv [wm5, wm4, wm6]
        ((RunMigrations failUp5Env [wm5, wm4, wm6] emptyDB).1)).1.migRows =
      emptyDB.migRows ++ ([wm4] ++ wm5 :: [wm6]).map migRowOf ∧
    (RunMigrations allOKEnv [wm5, wm4, wm6]
        ((RunMigrations failUp5Env [wm5, wm4, wm6] emptyDB).1)).2.2 = none :=
  C4_resume_after_partial_failure failUp5Env allOKEnv [wm5, wm4, wm6] emptyDB
    wm5 [wm4] [wm6] (by decide) (by decide) (by decide) (by decide)
    (by decide) (by decide) (by decide)

/-- Concrete seed fixtures used by concrete instantiations. -/
def ws20 : Seed := { Name := "metrics", Priority := 20 }

def ws5 : Seed := { Name := "admin_user", Priority := 5 }

def ws10 : Seed := { Name := "roles", Priority := 10 }

/-- C5: `RunSeeds` executes the pending seeds' Run actions in ascending
priority order — not name or registration order — and records completion
keyed by name in `schema_seeds`. -/
theorem C5_seed_priority_order (env : Env) (sds : List Seed) (db : DB)
    (hsds : (sds.map Seed.Name).Nodup)
    (hddl : env.fails createSeedsTableSQL = false)
    (hok : ∀ sd ∈ sds, seedOK env sd = true) :
    (RunSeeds env sds db).2.1 =
      Event.ddl createSeedsTableSQL :: (pendingSeeds sds db).map seedEvent ∧
    List.Chain' (fun a b : Int => a ≤ b) ((pendingSeeds sds db).map Seed.Priority) ∧
    (RunSeeds env sds db).1.seedRows =
      db.seedRows ++ (pendingSeeds sds db).map Seed.Name ∧
    (RunSeeds env sds db).2.2 = none := by
  have hokp : ∀ s ∈ pendingSeeds sds db, seedOK env s = true := fun s hs =>
    hok s ((mem_sortSeeds sds s).mp ((mem_pendingSeeds sds db s).mp hs).1)
  have hmain := RunSeeds_eq_spec env sds db hsds hddl
  rw [runSpecSeeds_all_ok env db _ hokp] at hmain
  have hle : ((pendingSeeds sds db).map Seed.Priority).Pairwise
      (fun a b : Int => a ≤ b) :=
    List.pairwise_map.mpr (pendingSeeds_sorted sds db)
  exact ⟨by rw [hmain], hle.chain', by rw [hmain], by rw [hmain]⟩

/-- C5 witness: seeds registered with priorities 20, 5, 10 against an empty
store run in priority order 5, 10, 20 and are recorded under their names. -/
theorem C5_seed_priority_order_witness :
    ((RunSeeds allOKEnv [ws20, ws5, ws10] emptyDB).2.1 =
      Event.ddl createSeedsTableSQL ::
        (pendingSeeds [ws20, ws5, ws10] emptyDB).map seedEvent ∧
    List.Chain' (fun a b : Int => a ≤ b)
      ((pendingSeeds [ws20, ws5, ws10] emptyDB).map Seed.Priority) ∧
    (RunSeeds allOKEnv [ws20, ws5, ws10] emptyDB).1.seedRows =
      emptyDB.seedRows ++ (pendingSeeds [ws20, ws5, ws10] emptyDB).map Seed.Name ∧
    (RunSeeds allOKEnv [ws20, ws5, ws10] emptyDB).2.2 = none) ∧
    (pendingSeeds [ws20, ws5, ws10] emptyDB).map seedEvent =
      [seedEvent ws5, seedEvent ws10, seedEvent ws20] :=
  ⟨C5_seed_priority_order allOKEnv [ws20, ws5, ws10] emptyDB
    (by decide) (by decide) (by decide), by decide⟩

/-- C6: every transaction obtained via `Begin` — in the table bootstraps,
`runMigration` and `runSeed` — is finished on every exit path (never left
open; committed exactly on success, rolled back otherwise), and the result
of the deferred `Rollback` never affects the operation's return value. -/
theorem C6_rollback_always_scheduled (env : Env) (db : DB) (mg : Migration)
    (sd : Seed) (f : Bool) :
    (runMigrationTx env db mg).1.phase ≠ TxPhase.opened ∧
    ((runMigrationTx env db mg).1.phase = TxPhase.committed ↔
      (runMigrationTx env db mg).2.2 = none) ∧
    ((runMigrationTx env db mg).1.phase = TxPhase.rolledBack ↔
      (runMigrationTx env db mg).2.2 ≠ none) ∧
    runMigration env db mg = runMigration { env with rollbackFails := f } db mg ∧
    (runSeedTx env db sd).1.phase ≠ TxPhase.opened ∧
    ((runSeedTx env db sd).1.phase = TxPhase.committed ↔
      (runSeedTx env db sd).2.2 = none) ∧
    runSeed env db sd = runSeed { env with rollbackFails := f } db sd ∧
    (createMigrationsTableTx env db).1.phase ≠ TxPhase.opened ∧
    (createSeedsTableTx env db).1.phase ≠ TxPhase.opened ∧
    createMigrationsTable env db =
      createMigrationsTable { env with rollbackFails := f } db ∧
    createSeedsTable env db = createSeedsTable { env with rollbackFails := f } db := by
  refine ⟨?_, ?_, ?_, ?_, ?_, ?_, ?_, ?_, ?_, ?_, ?_⟩
  · rw [runMigrationTx]
    split_ifs <;> simp [Tx.begin, Tx.commit, Tx.rollback]
  · rw [runMigrationTx]
    split_ifs <;> simp [Tx.begin, Tx.commit, Tx.rollback]
  · rw [runMigrationTx]
    split_ifs <;> simp [Tx.begin, Tx.commit, Tx.rollback]
  · rfl
  · rw [runSeedTx]
    split_ifs <;> simp [Tx.begin, Tx.commit, Tx.rollback]
  · rw [runSeedTx]
    split_ifs <;> simp [Tx.begin, Tx.commit, Tx.rollback]
  · rfl
  · rw [createMigrationsTableTx]
    split_ifs <;> simp [Tx.begin, Tx.commit, Tx.rollback]
  · rw [createSeedsTableTx]
    split_ifs <;> simp [Tx.begin, Tx.commit, Tx.rollback]
  · rfl
  · rfl

/-- Whitespace tokenization of a DDL text, for comparing schema spellings
independently of indentation and line breaks. -/
def sqlTokens (s : String) : List String :=
  ((splitBy Char.isWhitespace s.data).filter (fun t => ¬ t.isEmpty)).map String.mk

/-- Modelled from the spec (section 6): the text the spec presents as the
bit-for-bit tracking-table schema for `schema_migrations`. -/
def specMigrationsSchema : String :=
  "schema_migrations(version INTEGER PRIMARY KEY,\n                   description TEXT NOT NULL,\n                   applied_at TIMESTAMPTZ DEFAULT now())"

/-- Modelled from the spec (section 6): the text the spec presents as the
bit-for-bit tracking-table schema for `schema_seeds`. -/
def specSeedsSchema : String :=
  "schema_seeds(name TEXT PRIMARY KEY,\n             applied_at TIMESTAMPTZ DEFAULT now())"

/-- C7 counterexample: the DDL the code executes does not match the spec's
schema text bit-for-bit, not even token-for-token — the spec spells the
timestamp column `TIMESTAMPTZ DEFAULT now()` (and `INTEGER`/`TEXT` in upper
case), while the executed DDL spells it
`timestamp with time zone DEFAULT current_timestamp` and never contains the
tokens `TIMESTAMPTZ` or `now()`. -/
theorem C7_counterexample_ddl_not_bit_for_bit :
    sqlTokens createMigrationsTableSQL ≠ sqlTokens specMigrationsSchema ∧
    sqlTokens createSeedsTableSQL ≠ sqlTokens specSeedsSchema ∧
    "TIMESTAMPTZ" ∈ sqlTokens specMigrationsSchema ∧
    "TIMESTAMPTZ" ∉ sqlTokens createMigrationsTableSQL ∧
    "TIMESTAMPTZ" ∈ sqlTokens specSeedsSchema ∧
    "TIMESTAMPTZ" ∉ sqlTokens createSeedsTableSQL ∧
    "now())" ∈ sqlTokens specMigrationsSchema ∧
    "current_timestamp" ∈ sqlTokens createMigrationsTableSQL := by
  decide

/-- C7 amended: the bootstrap DDL defines the tracking tables with the
spec's columns, keys and constraints, but spelled
`version integer PRIMARY KEY, description text NOT NULL, applied_at
timestamp with time zone DEFAULT current_timestamp` (for `schema_seeds`:
`name text PRIMARY KEY` and the same timestamp column) — equivalent to the
spec's `INTEGER`/`TEXT`/`TIMESTAMPTZ DEFAULT now()` spelling under
PostgreSQL's type aliasing, but not bit-for-bit identical; each bootstrap
is an idempotent `CREATE TABLE IF NOT EXISTS`, executed in its own
transaction (committed whenever the DDL executes) as the first action of a
run, before any unit is attempted. -/
theorem C7_amended_bootstrap_ddl :
    sqlTokens createMigrationsTableSQL =
      ["CREATE", "TABLE", "IF", "NOT", "EXISTS", "schema_migrations", "(",
       "version", "integer", "PRIMARY", "KEY,", "description", "text", "NOT",
       "NULL,", "applied_at", "timestamp", "with", "time", "zone", "DEFAULT",
       "current_timestamp", ");"] ∧
    sqlTokens createSeedsTableSQL =
      ["CREATE", "TABLE", "IF", "NOT", "EXISTS", "schema_seeds", "(",
       "name", "text", "PRIMARY", "KEY,", "applied_at", "timestamp", "with",
       "time", "zone", "DEFAULT", "current_timestamp", ");"] ∧
    (∀ env migs db, (RunMigrations env migs db).2.1.head? =
      some (Event.ddl createMigrationsTableSQL)) ∧
    (∀ env sds db, (RunSeeds env sds db).2.1.head? =
      some (Event.ddl createSeedsTableSQL)) ∧
    (∀ env db, (createMigrationsTableTx env db).1.phase =
      (if env.fails createMigrationsTableSQL then TxPhase.rolledBack
       else TxPhase.committed)) ∧
    (∀ env db, (createSeedsTableTx env db).1.phase =
      (if env.fails createSeedsTableSQL then TxPhase.rolledBack
       else TxPhase.committed)) := by
  refine ⟨by decide, by decide, ?_, ?_, ?_, ?_⟩
  · intro env migs db
    rw [RunMigrations, createMigrationsTable, createMigrationsTableTx]
    split_ifs <;> simp [Tx.begin, Tx.commit, Tx.rollback, Tx.final]
  · intro env sds db
    rw [RunSeeds, createSeedsTable, createSeedsTableTx]
    split_ifs <;> simp [Tx.begin, Tx.commit, Tx.rollback, Tx.final]
  · intro env db
    rw [createMigrationsTableTx]
    split_ifs <;> simp [Tx.begin, Tx.commit, Tx.rollback]
  · intro env db
    rw [createSeedsTableTx]
    split_ifs <;> simp [Tx.begin, Tx.commit, Tx.rollback]

/-- Every `.sql` entry consumed by a successful loader run has a
well-formed migration filename: at least three underscore parts and a
version that `strconv.Atoi` accepts. -/
theorem loadMigrationsLoop_wellFormed :
    ∀ (files : List (String × String)) (acc acc2 : List (Int × Migration)),
    loadMigrationsLoop files acc = Except.ok acc2 →
    ∀ nc ∈ files, hasSuffix nc.1 ".sql" = true → wellFormedMigrationName nc.1 = true
  | [], _, _, _, _, hnc => by cases hnc
  | (name, content) :: rest, acc, acc2, h, nc, hnc => by
    rw [loadMigrationsLoop] at h
    cases hentry : loadMigrationEntry acc name content with
    | error e => rw [hentry] at h; cases h
    | ok acc1 =>
      rw [hentry] at h
      intro hsql
      rcases List.mem_cons.mp hnc with hhead | htail
      · subst hhead
        rw [loadMigrationEntry] at hentry
        rw [if_neg (by simp [hsql])] at hentry
        by_cases hlen : (nameParts name).length < 3
        · rw [if_pos hlen] at hentry
          cases hentry
        · rw [if_neg hlen] at hentry
          cases hat : atoi ((nameParts name).headD "") with
          | none =>
            rw [hat] at hentry
            cases hentry
          | some v =>
            show (decide (3 ≤ (nameParts name).length) &&
              (atoi ((nameParts name).headD "")).isSome) = true
            rw [hat]
            simp [Nat.not_lt.mp hlen]
      · exact loadMigrationsLoop_wellFormed rest acc1 acc2 h nc htail hsql

/-- Migration value produced by loading `-1_init_up.sql`. -/
def negativeVersionMigration : Migration :=
  { Version := -1
    Description := "init"
    Up := "drop table t;"
    Down := "" }

/-- C8 counterexample: the loader does not restrict versions to
non-negative integers — the file `-1_init_up.sql` loads without error into
a `Migration` whose version is the negative integer `-1`, because
`strconv.Atoi` accepts a leading sign. -/
theorem C8_counterexample_negative_version :
    LoadMigrationsFromDir [("-1_init_up.sql", "drop table t;")] =
      Except.ok [negativeVersionMigration] ∧
    negativeVersionMigration.Version < 0 :=
  ⟨rfl, by decide⟩

/-- C8 amended: the version component of a migration filename is parsed
with `strconv.Atoi` semantics — any integer, sign included, so negative
versions are accepted rather than rejected; a malformed `.sql` filename
(fewer than three underscore parts) or an unparseable version makes the
loader return an error, so no migration list is produced for the run; and
an up/down pair sharing a version merges into a single `Migration` carrying
both scripts (`001_init_up.sql` plus `001_init_down.sql` load to exactly
`Migration{Version:1, Description:"init"}` with the two file contents). -/
theorem C8_amended_loader (up down : String) (files : List (String × String))
    (ms : List Migration) (h : LoadMigrationsFromDir files = Except.ok ms) :
    LoadMigrationsFromDir [("001_init_up.sql", up), ("001_init_down.sql", down)] =
      Except.ok [{ Version := 1, Description := "init", Up := up, Down := down }] ∧
    ∀ nc ∈ files, hasSuffix nc.1 ".sql" = true →
      wellFormedMigrationName nc.1 = true := by
  constructor
  · rfl
  · intro nc hnc hsql
    rw [LoadMigrationsFromDir] at h
    cases hloop : loadMigrationsLoop files [] with
    | error e => rw [hloop] at h; cases h
    | ok acc => exact loadMigrationsLoop_wellFormed files [] acc hloop nc hnc hsql

/-- Migration value produced by the concrete round-trip directory. -/
def roundTripMigration : Migration :=
  { Version := 1
    Description := "init"
    Up := "create table t;"
    Down := "drop table t;" }

/-- C8 witness: the round trip and well-formedness read off a concrete
successful directory. -/
theorem C8_amended_loader_witness :
    LoadMigrationsFromDir [("001_init_up.sql", "create table t;"),
        ("001_init_down.sql", "drop table t;")] =
      Except.ok [{ Version := 1, Description := "init", Up := "create table t;", Down := "drop table t;" }] ∧
    ∀ nc ∈ [("001_init_up.sql", "create table t;"),
        ("001_init_down.sql", "drop table t;")],
      hasSuffix nc.1 ".sql" = true → wellFormedMigrationName nc.1 = true :=
  C8_amended_loader "create table t;" "drop table t;"
    [("001_init_up.sql", "create table t;"), ("001_init_down.sql", "drop table t;")]
    [roundTripMigration] rfl

/-- C9: the applied-version set is read once, before the loop, and is not
refreshed as units commit; two registered migrations sharing a not-yet-
applied version are therefore both attempted — the first commits, and the
second's tracking insert hits the primary key on `version` and aborts the
run with a recording error, even though that version was just applied. -/
theorem C9_duplicate_version_aborts (env : Env) (db : DB) (m1 m2 : Migration)
    (hv : m2.Version = m1.Version)
    (hnotin : m1.Version ∉ db.migRows.map Prod.fst)
    (h1 : migOK env m1 = true) (h2 : migOK env m2 = true)
    (hddl : env.fails createMigrationsTableSQL = false) :
    RunMigrations env [m1, m2] db =
      ({ db with migRows := db.migRows ++ [migRowOf m1] },
       [Event.ddl createMigrationsTableSQL, upEvent m1, upEvent m2],
       some (RunError.recordError m2.Version)) := by
  obtain ⟨hup1, hins1⟩ := (migOK_true_iff env m1).mp h1
  obtain ⟨hup2, _⟩ := (migOK_true_iff env m2).mp h2
  have hboot := createMigrationsTable_ok env db hddl
  have hsort : sortMigrations [m1, m2] = [m1, m2] := by
    simp [sortMigrations, List.insertionSort, List.orderedInsert, hv]
  have hnotin2 : m2.Version ∉ getAppliedMigrations db := by
    rw [hv]
    exact hnotin
  have hin2 : m2.Version ∈
      ({ db with migRows := db.migRows ++ [migRowOf m1] } : DB).migRows.map Prod.fst := by
    rw [show ({ db with migRows := db.migRows ++ [migRowOf m1] } : DB).migRows =
      db.migRows ++ [migRowOf m1] from rfl]
    rw [List.map_append]
    apply List.mem_append_right
    simp [migRowOf, hv]
  have hnotin1 : m1.Version ∉ getAppliedMigrations db := hnotin
  rw [RunMigrations, hboot]
  dsimp only
  rw [hsort]
  rw [runPendingMigrations, if_neg hnotin1]
  rw [runMigration_ok env db m1 hup1 hnotin hins1]
  dsimp only
  rw [runPendingMigrations, if_neg hnotin2]
  rw [runMigration_insertFails env _ m2 hup2 (Or.inl hin2)]
  rfl

/-- Migration sharing version 1 with `wm1` but carrying different text. -/
def wm1dup : Migration :=
  { Version := 1
    Description := "one again"
    Up := "up1b"
    Down := "down1b" }

/-- C9 witness: registering two migrations with version 1 against an empty
store commits the first, attempts both, and aborts recording the second. -/
theorem C9_duplicate_version_aborts_witness :
    RunMigrations allOKEnv [wm1, wm1dup] emptyDB =
      ({ emptyDB with migRows := emptyDB.migRows ++ [migRowOf wm1] },
       [Event.ddl createMigrationsTableSQL, upEvent wm1, upEvent wm1dup],
       some (RunError.recordError wm1dup.Version)) :=
  C9_duplicate_version_aborts allOKEnv emptyDB wm1 wm1dup
    (by decide) (by decide) (by decide) (by decide) (by decide)

/-- C10: when the store already holds a committed tracking row for a
version (the concurrent winner's commit) but the in-run applied set was
read before that commit and does not contain it (the loser's stale read),
the loser still attempts the migration: its Up script runs, its tracking
insert fails on the primary-key uniqueness constraint, its transaction is
rolled back, the run aborts with a recording error, and the winner's
committed row — exactly one row for that version — stands untouched. -/
theorem C10_pk_uniqueness_guard (env : Env) (applied : List Int) (db : DB)
    (mg : Migration) (rest : List Migration)
    (hup : env.fails mg.Up = false)
    (hwinner : mg.Version ∈ db.migRows.map Prod.fst)
    (hstale : mg.Version ∉ applied) :
    runPendingMigrations env applied (mg :: rest) db =
      (db, [upEvent mg], some (RunError.recordError mg.Version)) ∧
    (runMigrationTx env db mg).1.phase = TxPhase.rolledBack ∧
    ∀ n, (db.migRows.filter (fun r => decide (r.1 = mg.Version))).length = n →
      ((runPendingMigrations env applied (mg :: rest) db).1.migRows.filter
        (fun r => decide (r.1 = mg.Version))).length = n := by
  have hfirst : runPendingMigrations env applied (mg :: rest) db =
      (db, [upEvent mg], some (RunError.recordError mg.Version)) := by
    rw [runPendingMigrations, if_neg hstale,
      runMigration_insertFails env db mg hup (Or.inl hwinner)]
  refine ⟨hfirst, ?_, ?_⟩
  · rw [runMigrationTx]
    rw [if_neg (by simp [hup])]
    rw [if_pos (by exact Or.inl hwinner)]
    simp [Tx.begin, Tx.rollback]
  · intro n hn
    rw [hfirst]
    exact hn

/-- Store state left by the concurrent winner: one committed row for
version 1. -/
def winnerDB : DB :=
  { migRows := [(1, "one")]
    seedRows := [] }

/-- C10 witness: a loser with a stale empty applied set attempting version
1 against the winner's store is rolled back with a recording error, and the
single committed row for version 1 remains. -/
theorem C10_pk_uniqueness_guard_witness :
    (runPendingMigrations allOKEnv [] [wm1, wm2] winnerDB =
      (winnerDB, [upEvent wm1], some (RunError.recordError wm1.Version)) ∧
    (runMigrationTx allOKEnv winnerDB wm1).1.phase = TxPhase.rolledBack ∧
    ∀ n, (winnerDB.migRows.filter (fun r => decide (r.1 = wm1.Version))).length = n →
      ((runPendingMigrations allOKEnv [] [wm1, wm2] winnerDB).1.migRows.filter
        (fun r => decide (r.1 = wm1.Version))).length = n) ∧
    (winnerDB.migRows.filter (fun r => decide (r.1 = wm1.Version))).length = 1 :=
  ⟨C10_pk_uniqueness_guard allOKEnv [] winnerDB wm1 [wm2]
    (by decide) (by decide) (by decide), by decide⟩

end Seeder
